import Mathlib

/-!
Shallow embedding of `lunardome.py` (the Lunar Dome game): the colony state
machine `DomeState`, its setters with clamping, the per-turn transition
`end_turn`, maintenance, the random-event machinery, and the score table
with its CSV persistence.  Randomness is modelled by passing the results of
each `random.randrange` call explicitly; a draw from `randrange(a, b)` is an
integer `x` with `a ≤ x < b`.  Python `int()` truncation toward zero on a
float/rational is modelled by `pyInt`.
-/

namespace LunarDome

/-- Python `int()` applied to a rational: truncation toward zero. -/
def pyInt (q : ℚ) : ℤ := if 0 ≤ q then ⌊q⌋ else ⌈q⌉

/-- Constant `MAX_INTEGRITY = 100` from the source. -/
def MAX_INTEGRITY : ℤ := 100

/-- The table `DIFFICULTY_MULTIPLIER = [1, 1.25, 1.5, 1.75, 2]`. -/
def DIFFICULTY_MULTIPLIER : List ℚ := [1, 5/4, 3/2, 7/4, 2]

/-- The fields of the Python class `DomeState` (private attributes).
Python ints are modelled by `ℤ`; the float `difficulty` is exact
(a value of the table above), modelled by `ℚ`. -/
structure DomeState where
  year : ℤ
  difficulty : ℚ
  credits : ℤ
  peak_credits : ℤ
  colonists : ℤ
  soup : ℤ
  oxygen : ℤ
  integrity : ℤ
  soup_required_per_colonist : ℤ
  oxygen_required_per_colonist : ℤ
  sculpture_cost : ℤ
  soup_cost : ℤ
  oxygen_cost : ℤ
  sculpture_value : ℤ
deriving DecidableEq

/-- The `credits` property setter:
`self.__credits = int(value) if value > 0 else 0` followed by
`if self.__credits > self.__peak_credits: self.__peak_credits = self.__credits`. -/
def set_credits (s : DomeState) (value : ℚ) : DomeState :=
  let c := if 0 < value then pyInt value else 0
  { s with credits := c,
           peak_credits := if s.peak_credits < c then c else s.peak_credits }

/-- The `soup` property setter: `int(value) if value > 0 else 0`. -/
def set_soup (s : DomeState) (value : ℚ) : DomeState :=
  { s with soup := if 0 < value then pyInt value else 0 }

/-- The `oxygen` property setter: `int(value) if value > 0 else 0`. -/
def set_oxygen (s : DomeState) (value : ℚ) : DomeState :=
  { s with oxygen := if 0 < value then pyInt value else 0 }

/-- The `integrity` property setter:
pass `int(value)` through when `0 < value ≤ 100`, clamp to 100 above,
clamp to 0 otherwise. -/
def set_integrity (s : DomeState) (value : ℚ) : DomeState :=
  { s with integrity :=
      if 0 < value ∧ value ≤ 100 then pyInt value
      else if 100 < value then 100
      else 0 }

/-- The read-only property
`maintenance_cost = int((MAX_INTEGRITY - self.integrity) * self.difficulty) * 100`. -/
def maintenance_cost (s : DomeState) : ℤ :=
  pyInt (((MAX_INTEGRITY : ℚ) - (s.integrity : ℚ)) * s.difficulty) * 100

/-- The read-only property `is_viable`. -/
def is_viable (s : DomeState) : Bool :=
  if s.oxygen ≤ 0 ∨ s.soup ≤ 0 ∨ s.integrity ≤ 0 then false else true

/-- The random draws consumed by one call to `end_turn()`:
`soup_cost_draw, oxygen_cost_draw ~ randrange(3, 5 + int(difficulty))`,
`sculpture_bonus ~ randrange(-2, 5)`, and (used only when `year != 0`)
`growth_draw ~ randrange(1, int(difficulty) * 10)`. -/
structure TurnDraws where
  soup_cost_draw : ℤ
  oxygen_cost_draw : ℤ
  sculpture_bonus : ℤ
  growth_draw : ℤ
deriving DecidableEq

/-- The method `DomeState.end_turn()`, with the turn's random draws passed
explicitly.  Mirrors the source statement by statement: re-roll the two
prices, recompute `sculpture_value` from the fresh `oxygen_cost`, then --
only when `year != 0` -- consume soup and oxygen, decay integrity by
`int(colonists / 50)` (all through the clamping setters, using the
pre-growth colonist count), grow the population last, and finally
increment `year`. -/
def end_turn (s : DomeState) (d : TurnDraws) : DomeState :=
  let s1 := { s with soup_cost := d.soup_cost_draw, oxygen_cost := d.oxygen_cost_draw }
  let s2 := { s1 with
    sculpture_value := s1.oxygen_cost * s1.sculpture_cost + d.sculpture_bonus }
  let s3 :=
    if s2.year ≠ 0 then
      let a := set_soup s2
        ((s2.soup : ℚ) - ((s2.colonists * s2.soup_required_per_colonist : ℤ) : ℚ))
      let b := set_oxygen a
        ((a.oxygen : ℚ) - ((a.colonists * a.oxygen_required_per_colonist : ℤ) : ℚ))
      let c := set_integrity b
        ((b.integrity : ℚ) - ((pyInt ((b.colonists : ℚ) / 50) : ℤ) : ℚ))
      let increase_percent : ℚ := 1 + (d.growth_draw : ℚ) / 100
      { c with colonists := pyInt ((c.colonists : ℚ) * increase_percent) }
    else s2
  { s3 with year := s3.year + 1 }

/-- The random draws consumed by `DomeState.__init__`:
`soup_req_draw, oxygen_req_draw, sculpture_cost_draw ~
randrange(2, 3 + int(difficulty))`, plus the draws of the `end_turn()`
call made at the end of the constructor. -/
structure InitDraws where
  soup_req_draw : ℤ
  oxygen_req_draw : ℤ
  sculpture_cost_draw : ℤ
  first_turn : TurnDraws
deriving DecidableEq

/-- The constructor `DomeState.__init__(difficulty)`: fixed starting values,
the game-long random requirement/cost draws, then one `end_turn()` call. -/
def DomeState.init (difficulty_index : ℕ) (d : InitDraws) : DomeState :=
  let diff := DIFFICULTY_MULTIPLIER.getD difficulty_index 1
  let credits0 := pyInt (5000 - 1000 * (diff - 1))
  let s : DomeState := {
    year := 0
    difficulty := diff
    credits := credits0
    peak_credits := credits0
    colonists := 100
    soup := 2000
    oxygen := 3000
    integrity := 100
    soup_required_per_colonist := d.soup_req_draw
    oxygen_required_per_colonist := d.oxygen_req_draw
    sculpture_cost := d.sculpture_cost_draw
    soup_cost := 0
    oxygen_cost := 0
    sculpture_value := 0 }
  end_turn s d.first_turn

/-- The method `DomeState.perform_maintenance()` (print statements dropped):
no state change at full integrity, repair when affordable, otherwise no
state change. -/
def perform_maintenance (s : DomeState) : DomeState :=
  if s.integrity = 100 then s
  else if maintenance_cost s ≤ s.credits then
    let t := set_credits s ((s.credits : ℚ) - (maintenance_cost s : ℚ))
    set_integrity t 100
  else s

/-- The enum `EventType`. -/
inductive EventType where
  | BOON
  | CALAMITY
deriving DecidableEq

/-- The enum `Commodity`. -/
inductive Commodity where
  | OXYGEN
  | SOUP
  | INTEGRITY
deriving DecidableEq

/-- The data of the Python class `Event` (the display message and the
transient `last_amount` are presentation-only and carry no game logic). -/
structure Event where
  event_type : EventType
  commodity : Commodity
  minimum : ℤ
  maximum : ℤ
deriving DecidableEq

/-- The method `Event.apply_event(dome_state)` with the draw
`value ~ randrange(minimum, maximum)` passed explicitly: a BOON adds the
raw value, a CALAMITY adds `-abs(value * difficulty)`, through the
targeted commodity's clamping setter. -/
def apply_event (e : Event) (s : DomeState) (value : ℤ) : DomeState :=
  let amount : ℚ :=
    match e.event_type with
    | EventType.BOON => (value : ℚ)
    | EventType.CALAMITY => -|(value : ℚ) * s.difficulty|
  match e.commodity with
  | Commodity.OXYGEN => set_oxygen s ((s.oxygen : ℚ) + amount)
  | Commodity.SOUP => set_soup s ((s.soup : ℚ) + amount)
  | Commodity.INTEGRITY => set_integrity s ((s.integrity : ℚ) + amount)

/-- The `SoupDragon` event: CALAMITY on SOUP, range [100, 300). -/
def SoupDragon : Event := ⟨EventType.CALAMITY, Commodity.SOUP, 100, 300⟩

/-- The `MeteorStrike` event: CALAMITY on INTEGRITY, range [10, 45). -/
def MeteorStrike : Event := ⟨EventType.CALAMITY, Commodity.INTEGRITY, 10, 45⟩

/-- The `MoonQuake` event: CALAMITY on OXYGEN, range [100, 300). -/
def MoonQuake : Event := ⟨EventType.CALAMITY, Commodity.OXYGEN, 100, 300⟩

/-- The `IronChicken` event: BOON on OXYGEN, range [100, 300). -/
def IronChicken : Event := ⟨EventType.BOON, Commodity.OXYGEN, 100, 300⟩

/-- The `SoupGeyser` event: BOON on SOUP, range [100, 300). -/
def SoupGeyser : Event := ⟨EventType.BOON, Commodity.SOUP, 100, 300⟩

/-- The `Astronaut` event: BOON on INTEGRITY, range [10, 45). -/
def Astronaut : Event := ⟨EventType.BOON, Commodity.INTEGRITY, 10, 45⟩

/-- The `events` list built in `lunar_dome()`, in source order. -/
def events : List Event :=
  [SoupDragon, MeteorStrike, MoonQuake, IronChicken, SoupGeyser, Astronaut]

/-- The function `random_event(events, dome_state)`.  Its two draws are
passed explicitly: `fire_draw ~ randrange(0, 100)` decides whether an event
fires (`fire_draw % 10 == 0`), and when one does, the applied event is
`events[idx]` where `idx ~ randrange(0, len(events) - 1)`.
`value_draw` is the draw consumed inside `apply_event`. -/
def random_event (evs : List Event) (s : DomeState) (fire_draw : ℤ)
    (idx : ℕ) (value_draw : ℤ) : Bool × DomeState :=
  if fire_draw % 10 = 0 then
    (true, apply_event (evs.getD idx SoupDragon) s value_draw)
  else
    (false, s)

/-! High score table: `ScoreEntry`, its comparison, and the CSV
serialization used by `ScoreTable.save` / `ScoreTable.load`.
Python strings are modelled as `List Char`. -/

/-- The fields of the Python class `ScoreEntry`. -/
structure ScoreEntry where
  player : List Char
  years : ℤ
  colonists : ℤ
  peak_credits : ℤ
deriving DecidableEq

/-- The `player` property setter: `value.replace(",", "")[:20]` — strip
commas, truncate to 20 characters. -/
def sanitize_player (name : List Char) : List Char :=
  (name.filter (fun c => c != ',')).take 20

/-- The `ScoreEntry.__init__` constructor: the `self.player = player`
assignment goes through the sanitizing property setter. -/
def mkScoreEntry (player : List Char) (years colonists peak_credits : ℤ) : ScoreEntry :=
  { player := sanitize_player player
    years := years
    colonists := colonists
    peak_credits := peak_credits }

/-- The method `ScoreEntry.__gt__`: years strictly, then colonists
strictly on tied years, then peak credits non-strictly on tied years and
colonists. -/
def ScoreEntry.gtb (a b : ScoreEntry) : Bool :=
  if b.years < a.years then true
  else if a.years = b.years ∧ b.colonists < a.colonists then true
  else if a.years = b.years ∧ a.colonists = b.colonists ∧
      b.peak_credits ≤ a.peak_credits then true
  else false

/-- Decimal digits of `n`, most significant first, with explicit fuel
(the fuel is sufficient whenever `n < fuel`). -/
def printNatAux : ℕ → ℕ → List Char
  | 0, _ => []
  | fuel + 1, n =>
    if n < 10 then [Nat.digitChar n]
    else printNatAux fuel (n / 10) ++ [Nat.digitChar (n % 10)]

/-- Python `str(n)` for a natural number. -/
def printNat (n : ℕ) : List Char := printNatAux (n + 1) n

/-- Python `str(n)` for an int (f-string interpolation of an int). -/
def printInt (n : ℤ) : List Char :=
  if n < 0 then '-' :: printNat (-n).toNat else printNat n.toNat

/-- Numeric value of a decimal digit character. -/
def digitVal (c : Char) : ℕ := c.toNat - '0'.toNat

/-- Value of a decimal digit string, most significant first. -/
def parseNatVal (l : List Char) : ℕ := l.foldl (fun a c => a * 10 + digitVal c) 0

/-- Parse a nonempty all-digit string; `none` otherwise. -/
def parseDigits (l : List Char) : Option ℕ :=
  if l = [] then none
  else if l.all Char.isDigit then some (parseNatVal l) else none

/-- Python `str.strip()`: remove leading and trailing whitespace. -/
def pyStrip (l : List Char) : List Char :=
  ((l.dropWhile Char.isWhitespace).reverse.dropWhile Char.isWhitespace).reverse

/-- Python `int(string)`: strip whitespace, optional sign, decimal digits;
a failure (`ValueError`) is `none`. -/
def parseInt (l : List Char) : Option ℤ :=
  let t := pyStrip l
  if t.head? = some '-' then (parseDigits t.tail).map (fun n => -(Int.ofNat n))
  else if t.head? = some '+' then (parseDigits t.tail).map (fun n => Int.ofNat n)
  else (parseDigits t).map (fun n => Int.ofNat n)

/-- The method `ScoreEntry.toCSV()`:
`f"{self.player},{self.years},{self.colonists},{self.peak_credits}\n"`. -/
def toCSV (e : ScoreEntry) : List Char :=
  e.player ++ ',' :: printInt e.years ++ ',' :: printInt e.colonists ++
    ',' :: printInt e.peak_credits ++ ['\n']

/-- The method `ScoreTable.save()`: concatenate the CSV lines of the
entries, in order (the file contents that get written). -/
def save (scores : List ScoreEntry) : List Char := (scores.map toCSV).flatten

/-- Python `csv_string.split(",")`: split at every comma; the result is
always nonempty. -/
def splitOnComma : List Char → List (List Char)
  | [] => [[]]
  | c :: rest =>
    if c = ',' then [] :: splitOnComma rest
    else
      match splitOnComma rest with
      | [] => [[c]]
      | f :: fs => (c :: f) :: fs

/-- The classmethod `ScoreEntry.fromCSV(csv_string)`: split on commas, read
fields 0-3, convert 1-3 with `int()`; an `IndexError` or `ValueError` is
`none`. -/
def fromCSV (l : List Char) : Option ScoreEntry :=
  match splitOnComma l with
  | p :: ys :: cs :: ks :: _ =>
    match parseInt ys, parseInt cs, parseInt ks with
    | some y, some c, some k => some (mkScoreEntry p y c k)
    | _, _, _ => none
  | _ => none

/-- Universal-newlines translation performed by a Python text-mode read:
every `'\r\n'` pair and every lone `'\r'` becomes a single `'\n'`. -/
def univNewlines : List Char → List Char
  | [] => []
  | [c] => if c = '\r' then ['\n'] else [c]
  | c :: d :: rest =>
    if c = '\r' then
      if d = '\n' then '\n' :: univNewlines rest
      else '\n' :: univNewlines (d :: rest)
    else c :: univNewlines (d :: rest)

/-- Split translated text into chunks, each keeping its terminating
newline; a final chunk without a newline is kept too. -/
def splitLines : List Char → List (List Char)
  | [] => []
  | c :: rest =>
    if c = '\n' then ['\n'] :: splitLines rest
    else
      match splitLines rest with
      | [] => [[c]]
      | line :: ls => (c :: line) :: ls

/-- Python `file.readlines()` on a text-mode stream: universal-newlines
translation first, then splitting after every remaining newline. -/
def readlines (l : List Char) : List (List Char) := splitLines (univNewlines l)

/-- The per-line loop body of `ScoreTable.load()`: apply
`ScoreEntry.fromCSV` to every line, propagating any failure. -/
def parseLines : List (List Char) → Option (List ScoreEntry)
  | [] => some []
  | l :: ls =>
    match fromCSV l, parseLines ls with
    | some e, some es => some (e :: es)
    | _, _ => none

/-- The method `ScoreTable.load()` on given file contents: when the file
has at least one line, replace the current entries with the parsed ones;
otherwise keep the current entries. -/
def load (text : List Char) (scores : List ScoreEntry) : Option (List ScoreEntry) :=
  let lines := readlines text
  if 0 < lines.length then parseLines lines else some scores

/-- The state invariant of claim C4: nonnegative commodity stocks and
credits, integrity within [0, 100]. -/
def StateInv (s : DomeState) : Prop :=
  0 ≤ s.soup ∧ 0 ≤ s.oxygen ∧ 0 ≤ s.credits ∧ 0 ≤ s.integrity ∧ s.integrity ≤ 100

/-! Concrete states and draws used as witnesses. -/

/-- A concrete dome state as produced by construction at difficulty 0. -/
def demoState0 : DomeState := {
  year := 0
  difficulty := 1
  credits := 5000
  peak_credits := 5000
  colonists := 100
  soup := 2000
  oxygen := 3000
  integrity := 100
  soup_required_per_colonist := 2
  oxygen_required_per_colonist := 2
  sculpture_cost := 2
  soup_cost := 0
  oxygen_cost := 0
  sculpture_value := 0 }

/-- The same dome state one year in. -/
def turn1State : DomeState := { demoState0 with year := 1 }

/-- A dome state with degraded integrity, for maintenance witnesses. -/
def wornState : DomeState := { turn1State with integrity := 90 }

/-- Concrete turn draws, each inside its `randrange` bounds at
difficulty multiplier 1. -/
def demoDraws : TurnDraws := ⟨3, 4, -2, 5⟩

/-- Concrete constructor draws at difficulty multiplier 1. -/
def demoInitDraws : InitDraws := ⟨2, 2, 2, demoDraws⟩

/-- A concrete well-formed score entry. -/
def goodEntry : ScoreEntry := ⟨['b', 'o', 'b'], 3, 120, 4500⟩

/-- A second concrete well-formed score entry. -/
def otherEntry : ScoreEntry := ⟨['e', 'v', 'e'], 3, 120, 4400⟩

/-- A score entry whose player name contains no comma and has at most 20
characters, yet contains a newline. -/
def badEntry : ScoreEntry := ⟨['a', '\n', 'b'], 1, 2, 3⟩

/-- A score entry whose player name contains no comma, no newline and has
at most 20 characters, yet contains a carriage return. -/
def crEntry : ScoreEntry := ⟨['a', '\x0d', 'b'], 4, 5, 6⟩

/-! Helper lemmas about `pyInt` and the setters. -/

/-- Truncation of an integer-valued rational is that integer. -/
theorem pyInt_intCast (n : ℤ) : pyInt (n : ℚ) = n := by
  unfold pyInt
  rcases le_or_lt 0 (n : ℚ) with h | h
  · rw [if_pos h, Int.floor_intCast]
  · rw [if_neg (not_le.mpr h), Int.ceil_intCast]

/-- On nonnegative rationals, truncation is the floor. -/
theorem pyInt_of_nonneg {q : ℚ} (h : 0 ≤ q) : pyInt q = ⌊q⌋ := by
  unfold pyInt
  rw [if_pos h]

/-- Python `int(c / 50)` on a nonnegative int `c` is integer division by 50. -/
theorem pyInt_div_fifty (c : ℤ) (h : 0 ≤ c) : pyInt ((c : ℚ) / 50) = c / 50 := by
  have h0 : (0 : ℚ) ≤ (c : ℚ) / 50 := by positivity
  rw [pyInt_of_nonneg h0]
  have h50 : ((50 : ℕ) : ℚ) = (50 : ℚ) := by norm_num
  have := Rat.floor_intCast_div_natCast c 50
  rw [h50] at this
  rw [this]
  norm_num

/-- The soup setter on an integer-valued input clamps below at zero. -/
theorem set_soup_intCast (s : DomeState) (n : ℤ) :
    set_soup s ((n : ℤ) : ℚ) = { s with soup := max n 0 } := by
  unfold set_soup
  rcases lt_or_le 0 n with h | h
  · rw [if_pos (by exact_mod_cast h), pyInt_intCast]
    congr 1
    omega
  · rw [if_neg (by exact_mod_cast not_lt.mpr h)]
    congr 1
    omega

/-- The oxygen setter on an integer-valued input clamps below at zero. -/
theorem set_oxygen_intCast (s : DomeState) (n : ℤ) :
    set_oxygen s ((n : ℤ) : ℚ) = { s with oxygen := max n 0 } := by
  unfold set_oxygen
  rcases lt_or_le 0 n with h | h
  · rw [if_pos (by exact_mod_cast h), pyInt_intCast]
    congr 1
    omega
  · rw [if_neg (by exact_mod_cast not_lt.mpr h)]
    congr 1
    omega

/-- The integrity setter on an integer-valued input clamps into [0, 100]. -/
theorem set_integrity_intCast (s : DomeState) (n : ℤ) :
    set_integrity s ((n : ℤ) : ℚ) = { s with integrity := min 100 (max n 0) } := by
  unfold set_integrity
  rcases lt_or_le 100 n with h100 | h100
  · rw [if_neg, if_pos (by exact_mod_cast h100)]
    · congr 1
      omega
    · rintro ⟨-, hb⟩
      exact absurd (by exact_mod_cast hb) (not_le.mpr h100)
  · rcases lt_or_le 0 n with h0 | h0
    · rw [if_pos ⟨by exact_mod_cast h0, by exact_mod_cast h100⟩, pyInt_intCast]
      congr 1
      omega
    · rw [if_neg, if_neg (by exact_mod_cast not_lt.mpr (le_trans h0 (by norm_num)))]
      · congr 1
        omega
      · rintro ⟨ha, -⟩
        exact absurd (by exact_mod_cast ha) (not_lt.mpr h0)

/-- The credits setter on an integer-valued input clamps below at zero and
raises the high-water mark exactly when exceeded. -/
theorem set_credits_intCast (s : DomeState) (n : ℤ) :
    set_credits s ((n : ℤ) : ℚ) =
      { s with credits := max n 0,
               peak_credits := max s.peak_credits (max n 0) } := by
  simp only [set_credits, pyInt_intCast, Int.cast_pos]
  split_ifs with h1 h2 <;> congr 1 <;> omega

/-- Normal form of `end_turn` when called with `year == 0` (the constructor
call): only the prices, the sculpture value and the year change. -/
theorem end_turn_year_zero (s : DomeState) (d : TurnDraws) (h : s.year = 0) :
    end_turn s d = { s with
      soup_cost := d.soup_cost_draw,
      oxygen_cost := d.oxygen_cost_draw,
      sculpture_value := d.oxygen_cost_draw * s.sculpture_cost + d.sculpture_bonus,
      year := s.year + 1 } := by
  simp only [end_turn]
  rw [if_neg (by simp [h])]

/-- Normal form of `end_turn` when called with `year != 0`: prices re-roll,
sculpture value recomputes from the fresh oxygen cost, soup/oxygen/integrity
are decremented through their clamping setters using the pre-growth colonist
count, the population grows last, and the year increments. -/
theorem end_turn_year_ne_zero (s : DomeState) (d : TurnDraws) (h : s.year ≠ 0) :
    end_turn s d = { s with
      soup_cost := d.soup_cost_draw,
      oxygen_cost := d.oxygen_cost_draw,
      sculpture_value := d.oxygen_cost_draw * s.sculpture_cost + d.sculpture_bonus,
      soup := max (s.soup - s.colonists * s.soup_required_per_colonist) 0,
      oxygen := max (s.oxygen - s.colonists * s.oxygen_required_per_colonist) 0,
      integrity := min 100 (max (s.integrity - pyInt ((s.colonists : ℚ) / 50)) 0),
      colonists := pyInt ((s.colonists : ℚ) * (1 + (d.growth_draw : ℚ) / 100)),
      year := s.year + 1 } := by
  simp only [end_turn]
  rw [if_pos (by simpa using h)]
  rw [show ((s.soup : ℤ) : ℚ) - ((s.colonists * s.soup_required_per_colonist : ℤ) : ℚ)
        = (((s.soup - s.colonists * s.soup_required_per_colonist : ℤ)) : ℚ) by push_cast; ring]
  rw [set_soup_intCast]
  rw [show ((s.oxygen : ℤ) : ℚ) - ((s.colonists * s.oxygen_required_per_colonist : ℤ) : ℚ)
        = (((s.oxygen - s.colonists * s.oxygen_required_per_colonist : ℤ)) : ℚ) by push_cast; ring]
  rw [set_oxygen_intCast]
  rw [show ((s.integrity : ℤ) : ℚ) - ((pyInt ((s.colonists : ℚ) / 50) : ℤ) : ℚ)
        = (((s.integrity - pyInt ((s.colonists : ℚ) / 50) : ℤ)) : ℚ) by push_cast; ring]
  rw [set_integrity_intCast]

/-! Claim theorems. -/

/-- C3: `end_turn()` re-rolls `soup_cost` and `oxygen_cost`, recomputes
`sculpture_value` from the fresh `oxygen_cost`, then only when
`year != 0` subtracts soup/oxygen consumption and integrity decay
computed from the pre-growth colonist count, updates `colonists` last,
and increments `year`; the construction-time call (`year == 0`) applies
no consumption, decay or growth but sets `year` to 1 and rolls fresh
prices. -/
theorem c3_end_turn_order (s : DomeState) (d : TurnDraws) :
    (s.year = 0 → end_turn s d = { s with
      soup_cost := d.soup_cost_draw,
      oxygen_cost := d.oxygen_cost_draw,
      sculpture_value := d.oxygen_cost_draw * s.sculpture_cost + d.sculpture_bonus,
      year := s.year + 1 })
    ∧ (s.year ≠ 0 → end_turn s d = { s with
      soup_cost := d.soup_cost_draw,
      oxygen_cost := d.oxygen_cost_draw,
      sculpture_value := d.oxygen_cost_draw * s.sculpture_cost + d.sculpture_bonus,
      soup := max (s.soup - s.colonists * s.soup_required_per_colonist) 0,
      oxygen := max (s.oxygen - s.colonists * s.oxygen_required_per_colonist) 0,
      integrity := min 100 (max (s.integrity - pyInt ((s.colonists : ℚ) / 50)) 0),
      colonists := pyInt ((s.colonists : ℚ) * (1 + (d.growth_draw : ℚ) / 100)),
      year := s.year + 1 }) :=
  ⟨end_turn_year_zero s d, end_turn_year_ne_zero s d⟩

/-- Witness for C3: the construction-time call on a concrete state only
rolls prices and bumps the year. -/
theorem c3_end_turn_order_witness :
    end_turn demoState0 demoDraws = { demoState0 with
      soup_cost := demoDraws.soup_cost_draw,
      oxygen_cost := demoDraws.oxygen_cost_draw,
      sculpture_value := demoDraws.oxygen_cost_draw * demoState0.sculpture_cost
        + demoDraws.sculpture_bonus,
      year := demoState0.year + 1 } :=
  (c3_end_turn_order demoState0 demoDraws).1 rfl

/-- C1 counterexample: on a concrete state with 100 colonists and full
integrity in year 1, `end_turn()` leaves integrity at 98 (a decay of
`floor(100 / 50) = 2`), while the claimed decay of `floor(100 / 10) = 10`
would leave it at 90. -/
theorem c1_counterexample :
    turn1State.year ≠ 0 ∧
    (end_turn turn1State demoDraws).integrity = 98 ∧
    max (turn1State.integrity - turn1State.colonists / 10) 0 = 90 := by
  refine ⟨by decide, ?_, by decide⟩
  norm_num [end_turn, set_soup, set_oxygen, set_integrity, pyInt,
    turn1State, demoState0, demoDraws]

/-- C1 (amended): for every state with `year != 0`, nonnegative colonist
count and integrity within [0, 100], `end_turn()` subtracts exactly
`floor(colonists / 50)` from `integrity`, clamped below at 0, using the
pre-growth colonist count. -/
theorem c1_integrity_decay (s : DomeState) (d : TurnDraws)
    (hy : s.year ≠ 0) (hc : 0 ≤ s.colonists)
    (h0 : 0 ≤ s.integrity) (h1 : s.integrity ≤ 100) :
    (end_turn s d).integrity = max (s.integrity - s.colonists / 50) 0 := by
  rw [end_turn_year_ne_zero s d hy, pyInt_div_fifty s.colonists hc]
  have hdiv : 0 ≤ s.colonists / 50 := Int.ediv_nonneg hc (by norm_num)
  simp only
  omega

/-- Witness for C1 (amended) at a concrete state. -/
theorem c1_integrity_decay_witness :
    (end_turn turn1State demoDraws).integrity =
      max (turn1State.integrity - turn1State.colonists / 50) 0 :=
  c1_integrity_decay turn1State demoDraws (by decide) (by decide)
    (by decide) (by decide)

/-- C10: after every `end_turn()` call whose draws respect the source's
`randrange` bounds (`oxygen_cost ≥ 3`, additive term ≥ -2) on a state
whose `sculpture_cost ≥ 2` (its construction range has minimum 2), the
sculpture value is at least 4, hence strictly positive; in particular
this holds for the `end_turn()` call made during construction. -/
theorem c10_sculpture_value_pos :
    (∀ (s : DomeState) (d : TurnDraws), 2 ≤ s.sculpture_cost →
      3 ≤ d.oxygen_cost_draw → -2 ≤ d.sculpture_bonus →
      4 ≤ (end_turn s d).sculpture_value)
    ∧ ∀ (i : ℕ) (d : InitDraws), 2 ≤ d.sculpture_cost_draw →
      3 ≤ d.first_turn.oxygen_cost_draw → -2 ≤ d.first_turn.sculpture_bonus →
      4 ≤ (DomeState.init i d).sculpture_value := by
  have key : ∀ (s : DomeState) (d : TurnDraws), 2 ≤ s.sculpture_cost →
      3 ≤ d.oxygen_cost_draw → -2 ≤ d.sculpture_bonus →
      4 ≤ (end_turn s d).sculpture_value := by
    intro s d hc ho hb
    have hval : (end_turn s d).sculpture_value =
        d.oxygen_cost_draw * s.sculpture_cost + d.sculpture_bonus := by
      rcases eq_or_ne s.year 0 with h | h
      · rw [end_turn_year_zero s d h]
      · rw [end_turn_year_ne_zero s d h]
    rw [hval]
    nlinarith
  refine ⟨key, fun i d h2 h3 hb => ?_⟩
  exact key _ d.first_turn h2 h3 hb

/-- Witness for C10 on concrete draws. -/
theorem c10_sculpture_value_pos_witness :
    4 ≤ (end_turn demoState0 demoDraws).sculpture_value ∧
    4 ≤ (DomeState.init 0 demoInitDraws).sculpture_value :=
  ⟨c10_sculpture_value_pos.1 demoState0 demoDraws (by decide) (by decide) (by decide),
   c10_sculpture_value_pos.2 0 demoInitDraws (by decide) (by decide) (by decide)⟩

/-- C5: `maintenance_cost` equals `floor((100 - integrity) * difficulty) * 100`,
is nonnegative, is zero exactly when integrity is 100, and strictly
increases as integrity decreases at fixed difficulty (difficulty drawn
from the 5-entry multiplier table, integrity within its invariant
bounds). -/
theorem c5_maintenance_cost (s : DomeState)
    (hd : s.difficulty ∈ DIFFICULTY_MULTIPLIER)
    (h0 : 0 ≤ s.integrity) (h1 : s.integrity ≤ 100) :
    maintenance_cost s = ⌊((100 : ℚ) - (s.integrity : ℚ)) * s.difficulty⌋ * 100
    ∧ 0 ≤ maintenance_cost s
    ∧ (maintenance_cost s = 0 ↔ s.integrity = 100)
    ∧ ∀ t : DomeState, t.difficulty = s.difficulty → 0 ≤ t.integrity →
        t.integrity < s.integrity → maintenance_cost s < maintenance_cost t := by
  have hd1 : 1 ≤ s.difficulty := by
    simp only [DIFFICULTY_MULTIPLIER, List.mem_cons, List.not_mem_nil, or_false] at hd
    rcases hd with h | h | h | h | h <;> rw [h] <;> norm_num
  have hcast : ((MAX_INTEGRITY : ℤ) : ℚ) = 100 := by norm_num [MAX_INTEGRITY]
  have hq0 : (0 : ℚ) ≤ ((100 : ℚ) - (s.integrity : ℚ)) * s.difficulty := by
    have : (s.integrity : ℚ) ≤ 100 := by exact_mod_cast h1
    nlinarith
  have hform : maintenance_cost s =
      ⌊((100 : ℚ) - (s.integrity : ℚ)) * s.difficulty⌋ * 100 := by
    unfold maintenance_cost
    rw [hcast, pyInt_of_nonneg hq0]
  have hfloor0 : 0 ≤ ⌊((100 : ℚ) - (s.integrity : ℚ)) * s.difficulty⌋ :=
    Int.floor_nonneg.mpr hq0
  refine ⟨hform, by rw [hform]; positivity, ?_, ?_⟩
  · constructor
    · intro hzero
      by_contra hne
      have hlt : s.integrity < 100 := lt_of_le_of_ne h1 hne
      have hgap : (1 : ℚ) ≤ ((100 : ℚ) - (s.integrity : ℚ)) * s.difficulty := by
        have : (s.integrity : ℚ) + 1 ≤ 100 := by exact_mod_cast hlt
        nlinarith
      have : 1 ≤ ⌊((100 : ℚ) - (s.integrity : ℚ)) * s.difficulty⌋ :=
        Int.le_floor.mpr (by exact_mod_cast hgap)
      rw [hform] at hzero
      omega
    · intro h100
      rw [hform, h100]
      norm_num
  · intro t hdiff ht0 htlt
    have htq0 : (0 : ℚ) ≤ ((100 : ℚ) - (t.integrity : ℚ)) * t.difficulty := by
      have h100t : (t.integrity : ℚ) ≤ 100 := by
        have : t.integrity ≤ 100 := by omega
        exact_mod_cast this
      rw [hdiff]
      nlinarith
    have htform : maintenance_cost t =
        ⌊((100 : ℚ) - (t.integrity : ℚ)) * t.difficulty⌋ * 100 := by
      unfold maintenance_cost
      rw [hcast, pyInt_of_nonneg htq0]
    have hstep : ((100 : ℚ) - (s.integrity : ℚ)) * s.difficulty + 1 ≤
        ((100 : ℚ) - (t.integrity : ℚ)) * t.difficulty := by
      rw [hdiff]
      have : (t.integrity : ℚ) + 1 ≤ (s.integrity : ℚ) := by exact_mod_cast htlt
      nlinarith
    have hfl : ⌊((100 : ℚ) - (s.integrity : ℚ)) * s.difficulty⌋ + 1 ≤
        ⌊((100 : ℚ) - (t.integrity : ℚ)) * t.difficulty⌋ := by
      have := Int.floor_le_floor hstep
      rwa [Int.floor_add_one] at this
    rw [hform, htform]
    nlinarith
/-- Witness for C5 at a concrete degraded state. -/
theorem c5_maintenance_cost_witness :
    maintenance_cost wornState =
      ⌊((100 : ℚ) - (wornState.integrity : ℚ)) * wornState.difficulty⌋ * 100 ∧
    maintenance_cost wornState < maintenance_cost { wornState with integrity := 80 } := by
  have h := c5_maintenance_cost wornState (by norm_num [wornState, turn1State,
    demoState0, DIFFICULTY_MULTIPLIER]) (by decide) (by decide)
  exact ⟨h.1, h.2.2.2 { wornState with integrity := 80 } rfl (by decide) (by decide)⟩

/-- C6: `perform_maintenance()` is a no-op at full integrity; with degraded
integrity and sufficient credits it subtracts exactly the maintenance cost
from credits, restores integrity to 100, and touches nothing else; with
insufficient credits it changes no field. -/
theorem c6_perform_maintenance (s : DomeState) :
    (s.integrity = 100 → perform_maintenance s = s)
    ∧ (s.integrity < 100 → maintenance_cost s ≤ s.credits →
        perform_maintenance s = { s with
          credits := s.credits - maintenance_cost s,
          peak_credits := max s.peak_credits (s.credits - maintenance_cost s),
          integrity := 100 })
    ∧ (s.credits < maintenance_cost s → perform_maintenance s = s) := by
  refine ⟨?_, ?_, ?_⟩
  · intro h
    unfold perform_maintenance
    rw [if_pos h]
  · intro hlt hcred
    unfold perform_maintenance
    rw [if_neg (by omega), if_pos hcred]
    rw [show (s.credits : ℚ) - (maintenance_cost s : ℚ)
          = (((s.credits - maintenance_cost s : ℤ)) : ℚ) by push_cast; ring]
    rw [set_credits_intCast]
    rw [show (100 : ℚ) = (((100 : ℤ)) : ℚ) by norm_num]
    rw [set_integrity_intCast]
    congr 1 <;> dsimp only <;> omega
  · intro h
    unfold perform_maintenance
    rcases eq_or_ne s.integrity 100 with h100 | h100
    · rw [if_pos h100]
    · rw [if_neg h100, if_neg (by omega)]

/-- Witness for C6: repairing a concrete degraded state subtracts the
1000-credit cost and restores integrity; at full integrity nothing
changes. -/
theorem c6_perform_maintenance_witness :
    perform_maintenance demoState0 = demoState0 ∧
    perform_maintenance wornState = { wornState with
      credits := wornState.credits - maintenance_cost wornState,
      peak_credits := max wornState.peak_credits
        (wornState.credits - maintenance_cost wornState),
      integrity := 100 } :=
  ⟨(c6_perform_maintenance demoState0).1 rfl,
   (c6_perform_maintenance wornState).2.1 (by decide)
     (by norm_num [wornState, turn1State, demoState0, maintenance_cost,
       MAX_INTEGRITY, pyInt])⟩

/-- C7: the `>` comparison on score entries is lexicographic by years,
then colonists, then peak credits, with the final key non-strict; in
particular it holds between entries equal on all three keys, and it
fails whenever the left entry has strictly fewer years. -/
theorem c7_score_entry_gt (a b : ScoreEntry) :
    (ScoreEntry.gtb a b = true ↔
      (b.years < a.years
        ∨ (a.years = b.years ∧ b.colonists < a.colonists)
        ∨ (a.years = b.years ∧ a.colonists = b.colonists ∧
            b.peak_credits ≤ a.peak_credits)))
    ∧ (a.years = b.years → a.colonists = b.colonists →
        a.peak_credits = b.peak_credits → ScoreEntry.gtb a b = true)
    ∧ (a.years < b.years → ScoreEntry.gtb a b = false) := by
  unfold ScoreEntry.gtb
  refine ⟨?_, ?_, ?_⟩
  · split_ifs with h1 h2 h3 <;> simp <;> omega
  · intro hy hc hp
    split_ifs with h1 h2 h3 <;> first | rfl | (exfalso; omega)
  · intro hy
    split_ifs with h1 h2 h3 <;> first | rfl | (exfalso; omega)

/-- Witness for C7: concrete tied and strictly-ordered entries. -/
theorem c7_score_entry_gt_witness :
    ScoreEntry.gtb goodEntry goodEntry = true ∧
    ScoreEntry.gtb otherEntry goodEntry = false := by
  constructor
  · exact (c7_score_entry_gt goodEntry goodEntry).2.1 rfl rfl rfl
  · have h := (c7_score_entry_gt otherEntry goodEntry).1
    rcases hb : ScoreEntry.gtb otherEntry goodEntry with _ | _
    · rfl
    · exact absurd (h.mp hb) (by decide)

/-- C8: `peak_credits` is a monotone high-water mark: the credits setter
raises it exactly to the newly stored credits value when that value
exceeds it and never lowers it; no other state operation modifies it
(maintenance preserved under the `credits ≤ peak_credits` and
nonnegative-cost invariants), and construction establishes
`credits ≤ peak_credits`. -/
theorem c8_peak_credits_monotone :
    (∀ (s : DomeState) (v : ℚ), s.peak_credits ≤ (set_credits s v).peak_credits)
    ∧ (∀ (s : DomeState) (v : ℚ), (set_credits s v).peak_credits =
        if s.peak_credits < (set_credits s v).credits then (set_credits s v).credits
        else s.peak_credits)
    ∧ (∀ (s : DomeState) (v : ℚ), (set_credits s v).credits ≤ (set_credits s v).peak_credits)
    ∧ (∀ (s : DomeState) (v : ℚ), (set_soup s v).peak_credits = s.peak_credits)
    ∧ (∀ (s : DomeState) (v : ℚ), (set_oxygen s v).peak_credits = s.peak_credits)
    ∧ (∀ (s : DomeState) (v : ℚ), (set_integrity s v).peak_credits = s.peak_credits)
    ∧ (∀ (s : DomeState) (d : TurnDraws), (end_turn s d).peak_credits = s.peak_credits)
    ∧ (∀ (e : Event) (s : DomeState) (v : ℤ), (apply_event e s v).peak_credits = s.peak_credits)
    ∧ (∀ s : DomeState, s.credits ≤ s.peak_credits → 0 ≤ maintenance_cost s →
        (perform_maintenance s).peak_credits = s.peak_credits)
    ∧ (∀ (i : ℕ) (d : InitDraws),
        (DomeState.init i d).credits ≤ (DomeState.init i d).peak_credits) := by
  have hset : ∀ (s : DomeState) (v : ℚ), (set_credits s v).peak_credits =
      if s.peak_credits < (set_credits s v).credits then (set_credits s v).credits
      else s.peak_credits := by
    intro s v
    rfl
  have hsoup : ∀ (s : DomeState) (v : ℚ), (set_soup s v).peak_credits = s.peak_credits :=
    fun s v => rfl
  have hoxy : ∀ (s : DomeState) (v : ℚ), (set_oxygen s v).peak_credits = s.peak_credits :=
    fun s v => rfl
  have hinteg : ∀ (s : DomeState) (v : ℚ), (set_integrity s v).peak_credits = s.peak_credits :=
    fun s v => rfl
  have hmono : ∀ (s : DomeState) (v : ℚ), s.peak_credits ≤ (set_credits s v).peak_credits := by
    intro s v
    rw [hset s v]
    split_ifs with h <;> omega
  have hle : ∀ (s : DomeState) (v : ℚ),
      (set_credits s v).credits ≤ (set_credits s v).peak_credits := by
    intro s v
    rw [hset s v]
    split_ifs with h <;> omega
  have hturn : ∀ (s : DomeState) (d : TurnDraws),
      (end_turn s d).peak_credits = s.peak_credits := by
    intro s d
    rcases eq_or_ne s.year 0 with h | h
    · rw [end_turn_year_zero s d h]
    · rw [end_turn_year_ne_zero s d h]
  refine ⟨hmono, hset, hle, hsoup, hoxy, hinteg, hturn, ?_, ?_, ?_⟩
  · intro e s v
    unfold apply_event
    rcases e.commodity <;> simp only [hsoup, hoxy, hinteg]
  · intro s hc hm
    unfold perform_maintenance
    split_ifs with h1 h2
    · rfl
    · rw [hinteg, hset]
      have harg : (s.credits : ℚ) - (maintenance_cost s : ℚ)
          = (((s.credits - maintenance_cost s : ℤ)) : ℚ) := by push_cast; ring
      rw [harg, set_credits_intCast]
      dsimp only
      split_ifs with h3 <;> omega
    · rfl
  · intro i d
    have h0 : ∀ s : DomeState, s.credits ≤ s.peak_credits →
        (end_turn s d.first_turn).credits ≤ (end_turn s d.first_turn).peak_credits := by
      intro s hs
      rcases eq_or_ne s.year 0 with h | h
      · rw [end_turn_year_zero s d.first_turn h]
        exact hs
      · rw [end_turn_year_ne_zero s d.first_turn h]
        exact hs
    exact h0 _ le_rfl

/-- Witness for C8: the maintenance conjunct applied to a concrete
degraded state with its high-water mark in place. -/
theorem c8_peak_credits_monotone_witness :
    (perform_maintenance wornState).peak_credits = wornState.peak_credits :=
  c8_peak_credits_monotone.2.2.2.2.2.2.2.2.1 wornState (by decide)
    (by norm_num [wornState, turn1State, demoState0, maintenance_cost,
      MAX_INTEGRITY, pyInt])

/-- Truncation of a positive rational is nonnegative. -/
theorem pyInt_nonneg_of_pos {v : ℚ} (h : 0 < v) : 0 ≤ pyInt v := by
  rw [pyInt_of_nonneg h.le]
  exact Int.floor_nonneg.mpr h.le

/-- Truncation of a positive rational at most 100 is at most 100. -/
theorem pyInt_le_hundred {v : ℚ} (h0 : 0 < v) (h : v ≤ 100) : pyInt v ≤ 100 := by
  rw [pyInt_of_nonneg h0.le]
  have := Int.floor_le_floor h
  simpa using this

/-- C4: the clamping invariant — soup, oxygen and credits nonnegative and
integrity within [0, 100] — is preserved by construction (any valid
difficulty index), by every setter assignment, by `end_turn`, by
`perform_maintenance` and by event application; moreover every setter
clamps inputs at or below 0 to 0, the integrity setter passes integer
inputs in (0, 100] through unchanged and clamps inputs above 100 to
100. -/
theorem c4_state_invariants :
    (∀ (i : ℕ) (d : InitDraws), i < 5 → StateInv (DomeState.init i d))
    ∧ (∀ (s : DomeState) (v : ℚ), StateInv s → StateInv (set_soup s v))
    ∧ (∀ (s : DomeState) (v : ℚ), StateInv s → StateInv (set_oxygen s v))
    ∧ (∀ (s : DomeState) (v : ℚ), StateInv s → StateInv (set_credits s v))
    ∧ (∀ (s : DomeState) (v : ℚ), StateInv s → StateInv (set_integrity s v))
    ∧ (∀ (s : DomeState) (d : TurnDraws), StateInv s → StateInv (end_turn s d))
    ∧ (∀ s : DomeState, StateInv s → StateInv (perform_maintenance s))
    ∧ (∀ (e : Event) (s : DomeState) (v : ℤ), StateInv s → StateInv (apply_event e s v))
    ∧ (∀ (s : DomeState) (v : ℚ), v ≤ 0 →
        (set_soup s v).soup = 0 ∧ (set_oxygen s v).oxygen = 0 ∧
        (set_credits s v).credits = 0 ∧ (set_integrity s v).integrity = 0)
    ∧ (∀ (s : DomeState) (n : ℤ), 0 < n → n ≤ 100 →
        (set_integrity s ((n : ℤ) : ℚ)).integrity = n)
    ∧ (∀ (s : DomeState) (v : ℚ), 100 < v → (set_integrity s v).integrity = 100) := by
  have hclamp : ∀ v : ℚ, 0 ≤ if 0 < v then pyInt v else 0 := by
    intro v
    split_ifs with h
    · exact pyInt_nonneg_of_pos h
    · exact le_refl 0
  have hsoupI : ∀ (s : DomeState) (v : ℚ), StateInv s → StateInv (set_soup s v) := by
    intro s v h
    obtain ⟨h1, h2, h3, h4, h5⟩ := h
    exact ⟨hclamp v, h2, h3, h4, h5⟩
  have hoxyI : ∀ (s : DomeState) (v : ℚ), StateInv s → StateInv (set_oxygen s v) := by
    intro s v h
    obtain ⟨h1, h2, h3, h4, h5⟩ := h
    exact ⟨h1, hclamp v, h3, h4, h5⟩
  have hcredI : ∀ (s : DomeState) (v : ℚ), StateInv s → StateInv (set_credits s v) := by
    intro s v h
    obtain ⟨h1, h2, h3, h4, h5⟩ := h
    exact ⟨h1, h2, hclamp v, h4, h5⟩
  have hintegB : ∀ v : ℚ,
      0 ≤ (if 0 < v ∧ v ≤ 100 then pyInt v else if 100 < v then 100 else 0) ∧
      (if 0 < v ∧ v ≤ 100 then pyInt v else if 100 < v then 100 else 0) ≤ 100 := by
    intro v
    split_ifs with ha hb
    · exact ⟨pyInt_nonneg_of_pos ha.1, pyInt_le_hundred ha.1 ha.2⟩
    · exact ⟨by norm_num, le_refl 100⟩
    · exact ⟨le_refl 0, by norm_num⟩
  have hintegI : ∀ (s : DomeState) (v : ℚ), StateInv s → StateInv (set_integrity s v) := by
    intro s v h
    obtain ⟨h1, h2, h3, h4, h5⟩ := h
    exact ⟨h1, h2, h3, (hintegB v).1, (hintegB v).2⟩
  have hturnI : ∀ (s : DomeState) (d : TurnDraws), StateInv s → StateInv (end_turn s d) := by
    intro s d h
    obtain ⟨h1, h2, h3, h4, h5⟩ := h
    rcases eq_or_ne s.year 0 with hy | hy
    · rw [end_turn_year_zero s d hy]
      exact ⟨h1, h2, h3, h4, h5⟩
    · rw [end_turn_year_ne_zero s d hy]
      refine ⟨?_, ?_, h3, ?_, ?_⟩ <;> dsimp only <;> omega
  have hmaintI : ∀ s : DomeState, StateInv s → StateInv (perform_maintenance s) := by
    intro s h
    unfold perform_maintenance
    split_ifs with ha hb
    · exact h
    · exact hintegI _ _ (hcredI _ _ h)
    · exact h
  refine ⟨?_, hsoupI, hoxyI, hcredI, hintegI, hturnI, hmaintI, ?_, ?_, ?_, ?_⟩
  · intro i d hi
    have hs0 : StateInv {
        year := 0
        difficulty := DIFFICULTY_MULTIPLIER.getD i 1
        credits := pyInt (5000 - 1000 * (DIFFICULTY_MULTIPLIER.getD i 1 - 1))
        peak_credits := pyInt (5000 - 1000 * (DIFFICULTY_MULTIPLIER.getD i 1 - 1))
        colonists := 100
        soup := 2000
        oxygen := 3000
        integrity := 100
        soup_required_per_colonist := d.soup_req_draw
        oxygen_required_per_colonist := d.oxygen_req_draw
        sculpture_cost := d.sculpture_cost_draw
        soup_cost := 0
        oxygen_cost := 0
        sculpture_value := 0 } := by
      refine ⟨by norm_num, by norm_num, ?_, by norm_num, by norm_num⟩
      interval_cases i <;> norm_num [DIFFICULTY_MULTIPLIER, pyInt]
    exact hturnI _ d.first_turn hs0
  · intro e s v h
    unfold apply_event
    rcases e.commodity
    · exact hoxyI _ _ h
    · exact hsoupI _ _ h
    · exact hintegI _ _ h
  · intro s v hv
    refine ⟨?_, ?_, ?_, ?_⟩
    · unfold set_soup
      dsimp only
      rw [if_neg (by linarith)]
    · unfold set_oxygen
      dsimp only
      rw [if_neg (by linarith)]
    · unfold set_credits
      dsimp only
      rw [if_neg (by linarith)]
    · unfold set_integrity
      dsimp only
      rw [if_neg (by rintro ⟨ha, -⟩; linarith), if_neg (by linarith)]
  · intro s n h0 h100
    rw [set_integrity_intCast]
    dsimp only
    omega
  · intro s v hv
    unfold set_integrity
    dsimp only
    rw [if_neg (by rintro ⟨-, hb⟩; linarith), if_pos hv]

/-- Witness for C4 at concrete inputs. -/
theorem c4_state_invariants_witness :
    StateInv (DomeState.init 0 demoInitDraws) ∧
    StateInv (set_soup demoState0 (-7)) ∧
    (set_credits demoState0 (-10)).credits = 0 ∧
    (set_integrity demoState0 ((40 : ℤ) : ℚ)).integrity = 40 ∧
    (set_integrity demoState0 150).integrity = 100 :=
  ⟨c4_state_invariants.1 0 demoInitDraws (by norm_num),
   c4_state_invariants.2.1 demoState0 (-7)
     ⟨by decide, by decide, by decide, by decide, by decide⟩,
   (c4_state_invariants.2.2.2.2.2.2.2.2.1 demoState0 (-10) (by norm_num)).2.2.1,
   c4_state_invariants.2.2.2.2.2.2.2.2.2.1 demoState0 40 (by norm_num) (by norm_num),
   c4_state_invariants.2.2.2.2.2.2.2.2.2.2 demoState0 150 (by norm_num)⟩

/-- C2: the selection draw in `random_event` is
`randrange(0, len(events) - 1)`, i.e. an index in `[0, 5)` over the
6-element `events` list, so the sixth variant (`Astronaut`, at index 5)
can never be the event applied — its probability is 0, not 1/6; the
firing test itself (`randrange(0, 100) % 10 == 0`) does fire on exactly
10 of the 100 possible draws. -/
theorem c2_random_event_selection :
    events.length = 6
    ∧ events.getD 5 SoupDragon = Astronaut
    ∧ (∀ idx : ℕ, idx < events.length - 1 → events.getD idx SoupDragon ≠ Astronaut)
    ∧ (∀ (s : DomeState) (fire : ℤ) (idx : ℕ) (v : ℤ), fire % 10 = 0 →
        random_event events s fire idx v =
          (true, apply_event (events.getD idx SoupDragon) s v))
    ∧ (∀ (s : DomeState) (fire : ℤ) (idx : ℕ) (v : ℤ), fire % 10 ≠ 0 →
        random_event events s fire idx v = (false, s))
    ∧ ((Finset.Ico (0 : ℤ) 100).filter (fun x => x % 10 = 0)).card = 10 := by
  refine ⟨by decide, by decide, ?_, ?_, ?_, by decide⟩
  · intro idx h
    have h5 : idx < 5 := by simpa [events] using h
    interval_cases idx <;> decide
  · intro s fire idx v h
    unfold random_event
    rw [if_pos h]
  · intro s fire idx v h
    unfold random_event
    rw [if_neg h]

/-- Witness for C2: every index the selection draw can produce yields an
event other than `Astronaut`, and a firing draw of 0 applies the selected
event. -/
theorem c2_random_event_selection_witness :
    events.getD 4 SoupDragon ≠ Astronaut ∧
    random_event events demoState0 0 4 120 =
      (true, apply_event (events.getD 4 SoupDragon) demoState0 120) :=
  ⟨c2_random_event_selection.2.2.1 4 (by decide),
   c2_random_event_selection.2.2.2.1 demoState0 0 4 120 (by decide)⟩

/-! Lemmas for the CSV round trip (claim C9). -/

/-- Digit characters of values below ten are decimal digits. -/
theorem digitChar_isDigit (r : ℕ) (h : r < 10) : (Nat.digitChar r).isDigit = true := by
  interval_cases r <;> decide

/-- Digit characters of values below ten decode to their value. -/
theorem digitVal_digitChar (r : ℕ) (h : r < 10) : digitVal (Nat.digitChar r) = r := by
  interval_cases r <;> decide

/-- Appending a digit multiplies the decoded value by ten and adds it. -/
theorem parseNatVal_append_digit (l : List Char) (c : Char) :
    parseNatVal (l ++ [c]) = parseNatVal l * 10 + digitVal c := by
  unfold parseNatVal
  rw [List.foldl_append]
  rfl

/-- With sufficient fuel, `printNatAux` produces a nonempty all-digit
string decoding to its input. -/
theorem printNatAux_spec : ∀ fuel n : ℕ, n < fuel →
    printNatAux fuel n ≠ [] ∧ (∀ c ∈ printNatAux fuel n, c.isDigit = true) ∧
    parseNatVal (printNatAux fuel n) = n := by
  intro fuel
  induction fuel with
  | zero => intro n h; omega
  | succ f ih =>
    intro n h
    rw [printNatAux]
    split_ifs with h10
    · refine ⟨by simp, ?_, ?_⟩
      · intro c hc
        rw [List.mem_singleton] at hc
        subst hc
        exact digitChar_isDigit n h10
      · simp [parseNatVal, digitVal_digitChar n h10]
    · have hd : n / 10 < f := by omega
      obtain ⟨ihne, ihdig, ihval⟩ := ih (n / 10) hd
      refine ⟨by simp, ?_, ?_⟩
      · intro c hc
        rw [List.mem_append] at hc
        rcases hc with hc | hc
        · exact ihdig c hc
        · rw [List.mem_singleton] at hc
          subst hc
          exact digitChar_isDigit (n % 10) (by omega)
      · rw [parseNatVal_append_digit, ihval, digitVal_digitChar (n % 10) (by omega)]
        omega

/-- Python `str(n)` of a natural number is nonempty, all digits, and
decodes to `n`. -/
theorem printNat_spec (n : ℕ) : printNat n ≠ [] ∧
    (∀ c ∈ printNat n, c.isDigit = true) ∧ parseNatVal (printNat n) = n :=
  printNatAux_spec (n + 1) n (by omega)

/-- Parsing the printed digits of a natural number recovers it. -/
theorem parseDigits_printNat (n : ℕ) : parseDigits (printNat n) = some n := by
  obtain ⟨h1, h2, h3⟩ := printNat_spec n
  unfold parseDigits
  rw [if_neg h1, if_pos (List.all_eq_true.mpr h2), h3]

/-- A decimal digit is not a whitespace character. -/
theorem isDigit_not_ws {c : Char} (h : c.isDigit = true) : c.isWhitespace = false := by
  rcases hw : c.isWhitespace with _ | _
  · rfl
  · exfalso
    have hc : ((c = ' ' ∨ c = '\t') ∨ c = '\x0d') ∨ c = '\n' := by
      simpa [Char.isWhitespace] using hw
    rcases hc with ((rfl | rfl) | rfl) | rfl <;> exact absurd h (by decide)

/-- A decimal digit is not a minus sign. -/
theorem isDigit_ne_minus {c : Char} (h : c.isDigit = true) : ¬(c = '-') := by
  rintro rfl
  exact absurd h (by decide)

/-- A decimal digit is not a plus sign. -/
theorem isDigit_ne_plus {c : Char} (h : c.isDigit = true) : ¬(c = '+') := by
  rintro rfl
  exact absurd h (by decide)

/-- A decimal digit is not a comma. -/
theorem isDigit_ne_comma {c : Char} (h : c.isDigit = true) : ¬(c = ',') := by
  rintro rfl
  exact absurd h (by decide)

/-- A non-whitespace character is not a newline. -/
theorem no_newline_of_no_ws {c : Char} (h : c.isWhitespace = false) : ¬(c = '\n') := by
  rintro rfl
  exact absurd h (by decide)

/-- Dropping while a predicate fails everywhere drops nothing. -/
theorem dropWhile_eq_self_of_all {p : Char → Bool} (l : List Char)
    (h : ∀ c ∈ l, p c = false) : l.dropWhile p = l := by
  induction l with
  | nil => rfl
  | cons c t ih =>
    rw [List.dropWhile_cons, h c (by simp)]
    simp

/-- Stripping a string with no whitespace leaves it unchanged. -/
theorem pyStrip_of_no_ws (l : List Char) (h : ∀ c ∈ l, c.isWhitespace = false) :
    pyStrip l = l := by
  unfold pyStrip
  rw [dropWhile_eq_self_of_all l h,
    dropWhile_eq_self_of_all l.reverse (by intro c hc; exact h c (by simpa using hc)),
    List.reverse_reverse]

/-- Stripping a whitespace-free string followed by a newline removes
exactly the newline. -/
theorem pyStrip_append_newline (l : List Char) (h : ∀ c ∈ l, c.isWhitespace = false) :
    pyStrip (l ++ ['\n']) = l := by
  unfold pyStrip
  cases l with
  | nil => decide
  | cons a t =>
    have ha : Char.isWhitespace a = false := h a (by simp)
    rw [List.cons_append, List.dropWhile_cons, ha]
    simp only [Bool.false_eq_true, if_false]
    have hrev : (a :: (t ++ ['\n'])).reverse = '\n' :: (t.reverse ++ [a]) := by
      simp
    rw [hrev, List.dropWhile_cons]
    norm_num
    rw [dropWhile_eq_self_of_all (t.reverse ++ [a]) ?hall]
    · simp
    · intro c hc
      rw [List.mem_append] at hc
      rcases hc with hc | hc
      · exact h c (by simp [List.mem_reverse.mp hc])
      · rw [List.mem_singleton] at hc
        subst hc
        exact ha

/-- Printed integers contain no whitespace. -/
theorem printInt_no_ws (k : ℤ) : ∀ c ∈ printInt k, c.isWhitespace = false := by
  intro c hc
  unfold printInt at hc
  split_ifs at hc with hk
  · rw [List.mem_cons] at hc
    rcases hc with rfl | hc
    · decide
    · exact isDigit_not_ws ((printNat_spec (-k).toNat).2.1 c hc)
  · exact isDigit_not_ws ((printNat_spec k.toNat).2.1 c hc)

/-- Printed integers contain no comma. -/
theorem printInt_no_comma (k : ℤ) : ∀ c ∈ printInt k, ¬(c = ',') := by
  intro c hc
  unfold printInt at hc
  split_ifs at hc with hk
  · rw [List.mem_cons] at hc
    rcases hc with rfl | hc
    · decide
    · exact isDigit_ne_comma ((printNat_spec (-k).toNat).2.1 c hc)
  · exact isDigit_ne_comma ((printNat_spec k.toNat).2.1 c hc)

/-- Python `int()` of any string that strips to a printed integer
recovers that integer. -/
theorem parseInt_of_strip (l : List Char) (k : ℤ) (h : pyStrip l = printInt k) :
    parseInt l = some k := by
  simp only [parseInt]
  rw [h]
  rcases lt_or_le k 0 with hk | hk
  · rw [show printInt k = '-' :: printNat (-k).toNat from by
      unfold printInt; rw [if_pos hk]]
    rw [if_pos (by simp)]
    simp only [List.tail_cons]
    rw [parseDigits_printNat]
    simp only [Option.map, Option.some.injEq, Int.ofNat_eq_natCast]
    omega
  · obtain ⟨hne, hdig, -⟩ := printNat_spec k.toNat
    rw [show printInt k = printNat k.toNat from by
      unfold printInt; rw [if_neg (not_lt.mpr hk)]]
    rcases hd : printNat k.toNat with _ | ⟨c, cs⟩
    · exact absurd hd hne
    · have hcdig : c.isDigit = true := hdig c (by rw [hd]; simp)
      rw [if_neg (by
        simp only [List.head?_cons, Option.some.injEq]
        exact isDigit_ne_minus hcdig)]
      rw [if_neg (by
        simp only [List.head?_cons, Option.some.injEq]
        exact isDigit_ne_plus hcdig)]
      rw [← hd, parseDigits_printNat]
      simp only [Option.map, Option.some.injEq, Int.ofNat_eq_natCast]
      omega

/-- Parsing a printed integer recovers it. -/
theorem parseInt_printInt (k : ℤ) : parseInt (printInt k) = some k :=
  parseInt_of_strip _ k (pyStrip_of_no_ws _ (printInt_no_ws k))

/-- Parsing a printed integer with a trailing newline recovers it. -/
theorem parseInt_printInt_newline (k : ℤ) :
    parseInt (printInt k ++ ['\n']) = some k :=
  parseInt_of_strip _ k (pyStrip_append_newline _ (printInt_no_ws k))

/-- Splitting a comma-free string yields that single field. -/
theorem splitOnComma_no_comma (l : List Char) (h : ∀ c ∈ l, ¬(c = ',')) :
    splitOnComma l = [l] := by
  induction l with
  | nil => rfl
  | cons c t ih =>
    rw [splitOnComma, if_neg (h c (by simp)), ih (fun x hx => h x (by simp [hx]))]

/-- Splitting a comma-free prefix followed by a comma peels off that
field. -/
theorem splitOnComma_append (pre rest : List Char) (h : ∀ c ∈ pre, ¬(c = ',')) :
    splitOnComma (pre ++ ',' :: rest) = pre :: splitOnComma rest := by
  induction pre with
  | nil =>
    rw [List.nil_append, splitOnComma, if_pos rfl]
  | cons c t ih =>
    rw [List.cons_append, splitOnComma, if_neg (h c (by simp)),
      ih (fun x hx => h x (by simp [hx]))]

/-- The fields of a CSV line produced by `toCSV` for a comma-free player
name. -/
theorem fields_of_toCSV (e : ScoreEntry) (hp : ∀ c ∈ e.player, ¬(c = ',')) :
    splitOnComma (toCSV e) =
      [e.player, printInt e.years, printInt e.colonists,
        printInt e.peak_credits ++ ['\n']] := by
  unfold toCSV
  simp only [List.append_assoc, List.cons_append]
  rw [splitOnComma_append _ _ hp,
    splitOnComma_append _ _ (printInt_no_comma e.years),
    splitOnComma_append _ _ (printInt_no_comma e.colonists),
    splitOnComma_no_comma _ ?last]
  intro c hc
  rw [List.mem_append] at hc
  rcases hc with hc | hc
  · exact printInt_no_comma e.peak_credits c hc
  · rw [List.mem_singleton] at hc
    subst hc
    decide

/-- Reading back the CSV line of an entry with a sanitized (comma-free,
at most 20 characters) player name recovers the entry. -/
theorem fromCSV_toCSV (e : ScoreEntry) (hp : ∀ c ∈ e.player, ¬(c = ','))
    (hlen : e.player.length ≤ 20) : fromCSV (toCSV e) = some e := by
  unfold fromCSV
  rw [fields_of_toCSV e hp]
  dsimp only
  rw [parseInt_printInt, parseInt_printInt, parseInt_printInt_newline]
  dsimp only
  unfold mkScoreEntry sanitize_player
  have hfil : e.player.filter (fun c => c != ',') = e.player :=
    List.filter_eq_self.mpr (fun c hc => by simpa using hp c hc)
  rw [hfil, List.take_of_length_le hlen]

/-- A non-whitespace character is not a carriage return. -/
theorem no_cr_of_no_ws {c : Char} (h : c.isWhitespace = false) : ¬(c = '\x0d') := by
  rintro rfl
  exact absurd h (by decide)

/-- Universal-newlines translation of carriage-return-free text leaves it
unchanged. -/
theorem univNewlines_of_no_cr : ∀ l : List Char, (∀ c ∈ l, ¬(c = '\x0d')) →
    univNewlines l = l
  | [], _ => rfl
  | [c], h => by
    rw [univNewlines, if_neg (h c (by simp))]
  | c :: d :: rest, h => by
    rw [univNewlines, if_neg (h c (by simp)),
      univNewlines_of_no_cr (d :: rest) (fun x hx => h x (List.mem_cons_of_mem c hx))]

/-- Splitting a newline-free chunk followed by a newline peels off
exactly that line, newline included. -/
theorem splitLines_append (line rest : List Char) (h : ∀ c ∈ line, ¬(c = '\n')) :
    splitLines (line ++ '\n' :: rest) = (line ++ ['\n']) :: splitLines rest := by
  induction line with
  | nil =>
    rw [List.nil_append, splitLines, if_pos rfl]
    rfl
  | cons c t ih =>
    rw [List.cons_append, splitLines, if_neg (h c (by simp)),
      ih (fun x hx => h x (by simp [hx]))]
    rfl

/-- A CSV line is its newline-free body plus the final newline. -/
theorem toCSV_eq_body (e : ScoreEntry) :
    toCSV e = (e.player ++ ',' :: printInt e.years ++ ',' :: printInt e.colonists ++
      ',' :: printInt e.peak_credits) ++ ['\n'] := rfl

/-- The body of a CSV line contains no newline when the player name does
not. -/
theorem toCSV_body_no_newline (e : ScoreEntry) (h : ∀ c ∈ e.player, ¬(c = '\n')) :
    ∀ c ∈ (e.player ++ ',' :: printInt e.years ++ ',' :: printInt e.colonists ++
      ',' :: printInt e.peak_credits), ¬(c = '\n') := by
  intro c hc
  simp only [List.append_assoc, List.cons_append, List.mem_append,
    List.mem_cons] at hc
  rcases hc with hc | rfl | hc | rfl | hc | rfl | hc
  · exact h c hc
  · decide
  · exact no_newline_of_no_ws (printInt_no_ws e.years c hc)
  · decide
  · exact no_newline_of_no_ws (printInt_no_ws e.colonists c hc)
  · decide
  · exact no_newline_of_no_ws (printInt_no_ws e.peak_credits c hc)

/-- Splitting the saved file yields exactly the CSV lines of the entries,
when no player name contains a newline. -/
theorem splitLines_save (scores : List ScoreEntry)
    (h : ∀ e ∈ scores, ∀ c ∈ e.player, ¬(c = '\n')) :
    splitLines (save scores) = scores.map toCSV := by
  induction scores with
  | nil => rfl
  | cons e es ih =>
    simp only [save, List.map_cons, List.flatten_cons]
    rw [toCSV_eq_body e, List.append_assoc, List.singleton_append,
      splitLines_append _ _ (toCSV_body_no_newline e (h e (by simp)))]
    have ih' := ih (fun x hx => h x (by simp [hx]))
    simp only [save] at ih'
    rw [ih', ← toCSV_eq_body e]

/-- A CSV line contains no carriage return when the player name does
not. -/
theorem toCSV_no_cr (e : ScoreEntry) (h : ∀ c ∈ e.player, ¬(c = '\x0d')) :
    ∀ c ∈ toCSV e, ¬(c = '\x0d') := by
  intro c hc
  rw [toCSV_eq_body e] at hc
  rw [List.mem_append] at hc
  rcases hc with hc | hc
  · simp only [List.append_assoc, List.cons_append, List.mem_append,
      List.mem_cons] at hc
    rcases hc with hc | rfl | hc | rfl | hc | rfl | hc
    · exact h c hc
    · decide
    · exact no_cr_of_no_ws (printInt_no_ws e.years c hc)
    · decide
    · exact no_cr_of_no_ws (printInt_no_ws e.colonists c hc)
    · decide
    · exact no_cr_of_no_ws (printInt_no_ws e.peak_credits c hc)
  · rw [List.mem_singleton] at hc
    subst hc
    decide

/-- The saved file contains no carriage return when no player name
does. -/
theorem save_no_cr (scores : List ScoreEntry)
    (h : ∀ e ∈ scores, ∀ c ∈ e.player, ¬(c = '\x0d')) :
    ∀ c ∈ save scores, ¬(c = '\x0d') := by
  intro c hc
  unfold save at hc
  rw [List.mem_flatten] at hc
  obtain ⟨l, hl, hcl⟩ := hc
  rw [List.mem_map] at hl
  obtain ⟨e, he, rfl⟩ := hl
  exact toCSV_no_cr e (h e he) c hcl

/-- Reading back the saved file through the text-mode stream yields
exactly the CSV lines of the entries, when no player name contains a
newline or a carriage return. -/
theorem readlines_save (scores : List ScoreEntry)
    (h : ∀ e ∈ scores, ∀ c ∈ e.player, ¬(c = '\n') ∧ ¬(c = '\x0d')) :
    readlines (save scores) = scores.map toCSV := by
  unfold readlines
  rw [univNewlines_of_no_cr (save scores)
    (save_no_cr scores (fun e he c hc => (h e he c hc).2))]
  exact splitLines_save scores (fun e he c hc => (h e he c hc).1)

/-- Parsing back the CSV lines of sanitized entries recovers the entry
list. -/
theorem parseLines_map_toCSV (scores : List ScoreEntry)
    (h : ∀ e ∈ scores, (∀ c ∈ e.player, ¬(c = ',')) ∧ e.player.length ≤ 20) :
    parseLines (scores.map toCSV) = some scores := by
  induction scores with
  | nil => rfl
  | cons e es ih =>
    simp only [List.map_cons, parseLines]
    rw [fromCSV_toCSV e (h e (by simp)).1 (h e (by simp)).2,
      ih (fun x hx => h x (by simp [hx]))]

/-- C9 counterexample: a score entry whose player name satisfies the
claim's sanitization hypothesis (no commas, at most 20 characters) but
contains a newline does not survive a save/load round trip — the newline
splits its line in two and loading fails; a carriage-return name breaks
it the same way, since the text-mode read translates the carriage return
into a newline; and an empty entry list is not reproduced either, since
loading an empty file keeps the loading table's previous entries. -/
theorem c9_round_trip_counterexample :
    ((∀ c ∈ badEntry.player, ¬(c = ',')) ∧ badEntry.player.length ≤ 20)
    ∧ load (save [badEntry]) [badEntry] ≠ some [badEntry]
    ∧ ((∀ c ∈ crEntry.player, ¬(c = ',') ∧ ¬(c = '\n')) ∧ crEntry.player.length ≤ 20)
    ∧ load (save [crEntry]) [crEntry] ≠ some [crEntry]
    ∧ load (save ([] : List ScoreEntry)) [goodEntry] = some [goodEntry] :=
  ⟨by decide, by decide, by decide, by decide, by decide⟩

/-- C9 (amended): for every nonempty entry list whose player names are
sanitized (no commas, at most 20 characters) and additionally contain no
newline and no carriage return, saving to CSV text and loading that text
back into any table reproduces the same entries in the same order. -/
theorem c9_round_trip (scores : List ScoreEntry)
    (h : ∀ e ∈ scores, (∀ c ∈ e.player, ¬(c = ',') ∧ ¬(c = '\n') ∧ ¬(c = '\x0d')) ∧
      e.player.length ≤ 20)
    (hne : scores ≠ []) (current : List ScoreEntry) :
    load (save scores) current = some scores := by
  simp only [load]
  rw [readlines_save scores
    (fun e he c hc => ⟨((h e he).1 c hc).2.1, ((h e he).1 c hc).2.2⟩)]
  rw [if_pos (by simpa [List.length_pos] using hne)]
  exact parseLines_map_toCSV scores
    (fun e he => ⟨fun c hc => ((h e he).1 c hc).1, (h e he).2⟩)

/-- Witness for C9 (amended): a concrete two-entry table round-trips. -/
theorem c9_round_trip_witness :
    load (save [goodEntry, otherEntry]) [] = some [goodEntry, otherEntry] :=
  c9_round_trip [goodEntry, otherEntry] (by decide) (by decide) []

end LunarDome
